import Mathlib

/-!
Verification development for the TasteBuds location dashboard report engine.

The definitions below are a shallow embedding of the aggregation and
report-generation code in `utils.py` and `main.py`:

* `calculate_interval_counts` (PLU classification and per-interval counting),
* `generate_report_data` (hour bucketing and row emission, 1-hour branch as
  invoked by `main.py`),
* the service-total / grand-total assembly and `_sort_order` sorting in
  `main.py`,
* `convert_to_30min_intervals` (splitting hourly rows into half hours),
* `save_report_data` (delete-then-upsert persistence of report rows).

Quantities are modelled as rationals (the Python code works on pandas floats;
all values reachable in the claims are dyadic rationals, which floats
represent exactly).  Python `int()` conversion is modelled by truncation
toward zero on rationals.  Pandas multi-column sorts are modelled by a stable
insertion sort over lexicographic keys of character codes.
-/

namespace TasteBuds

/-! ### Lexicographic order on lists of naturals, and a stable sort by key -/

/-- Strict lexicographic comparison of two lists of naturals. -/
def lexLtN : List ℕ → List ℕ → Bool
  | [], [] => false
  | [], _ :: _ => true
  | _ :: _, [] => false
  | a :: as, b :: bs => if a < b then true else if b < a then false else lexLtN as bs

section SortToolkit

variable {α : Type} (key : α → List ℕ)

/-- Insert an element into a list so that elements with strictly smaller keys
stay in front; equal keys keep the existing elements first (stability). -/
def insBy (a : α) : List α → List α
  | [] => [a]
  | b :: l => if lexLtN (key a) (key b) = true then a :: b :: l else b :: insBy a l

/-- Stable insertion sort by a `List ℕ` valued key; models a stable
multi-column dataframe sort. -/
def sortByKey (l : List α) : List α := l.foldl (fun acc a => insBy key a acc) []

/-- The non-strict order induced by the sort key. -/
def keyLe (a b : α) : Prop := lexLtN (key b) (key a) = false

end SortToolkit

/-! ### String helpers

Sort keys and substring tests are computed on lists of character codes, which
the kernel can evaluate.  `lowerCode` maps ASCII upper case letters to lower
case, modelling the case-insensitive `str.contains` used in `main.py`. -/

/-- Character codes of a string. -/
def strCodes (s : String) : List ℕ := s.toList.map Char.toNat

/-- ASCII lower-casing on character codes. -/
def lowerCode (n : ℕ) : ℕ := if 65 ≤ n ∧ n ≤ 90 then n + 32 else n

/-- Lower-cased character codes of a string. -/
def codesCI (s : String) : List ℕ := (strCodes s).map lowerCode

/-- Does the first list occur as a leading segment of the second? -/
def leadEq : List ℕ → List ℕ → Bool
  | [], _ => true
  | _ :: _, [] => false
  | a :: as, b :: bs => a == b && leadEq as bs

/-- Does the needle occur as a contiguous segment of the haystack? -/
def hasSub (needle : List ℕ) : List ℕ → Bool
  | [] => leadEq needle []
  | b :: bs => leadEq needle (b :: bs) || hasSub needle bs

/-- Case-insensitive test for the substring Total, modelling the pandas
filter Service.str.contains with case=False in `main.py`. -/
def containsTotalCI (s : String) : Bool := hasSub (codesCI ("Total")) (codesCI s)

/-- Case-sensitive test for the substring Total, modelling the Python
expression testing membership of Total in the service string in
`convert_to_30min_intervals`. -/
def containsTotalCS (s : String) : Bool := hasSub (strCodes ("Total")) (strCodes s)

/-- Two-digit zero padding, modelling the Python format spec 02d for the
hour values used in interval labels. -/
def pad2 (n : ℕ) : String := if n < 10 then "0" ++ toString n else toString n

/-- The interval label of an hourly bucket, modelling the f-string
"{hour:02d}:00" in `generate_report_data`. -/
def fmtHour (h : ℕ) : String := pad2 h ++ ":00"

/-! ### Integer conversion

`calculate_interval_counts` ends with a dict comprehension applying Python
`int()` to each (float) count.  `int()` truncates toward zero; on an exact
rational `num/den` this is the truncating integer division of `num` by
`den`. -/

/-- Truncation toward zero of a rational, modelling Python `int()`. -/
def truncQ (q : ℚ) : ℤ := q.num.tdiv q.den

/-! ### Data model and classification

`RawLine` models one item-CSV or modifier-CSV record after `load_data` has
normalised it: voided lines are already removed, `Qty` is numeric, and the
PLU value has been coerced to a number (`none` models a NaN produced by
`pd.to_numeric(..., errors="coerce")`, whether the source column was `PLU`,
`Master Id` or `Modifier PLU`).  `date` is an ordinal day number and
`hour`/`minute` are the components of the order timestamp used by the
bucketing code. -/

structure RawLine where
  date : ℕ
  hour : ℕ
  minute : ℕ
  orderId : String
  lineId : String
  name : String
  plu : Option ℤ
  qty : ℚ
deriving DecidableEq

/-- The eight fixed report categories of `calculate_interval_counts`. -/
inductive Category where
  | halfChix
  | halfRibs
  | fullRibs
  | sixOzMod
  | eightOzMod
  | corn
  | grits
  | pots
deriving DecidableEq, Fintype

/-- The PLU code table of `calculate_interval_counts` (`plu_mapping`),
copied list for list from the source. -/
def pluList : Category → List ℤ
  | .halfChix => [81831, 81990, 81991, 3074, 3001, 3009, 81828, 82316, 81783]
  | .halfRibs => [82151, 82149, 82147, 3033, 3034, 3032, 81912, 3009, 2007, 82152, 82150, 82148]
  | .fullRibs => [2273, 2276, 2280, 81831, 81830]
  | .sixOzMod => [3316, 3418, 81785]
  | .eightOzMod => [81829, 2114]
  | .corn => [2307, 3082, 3648, 2303]
  | .grits => [2308, 3086, 3618, 2306]
  | .pots => [2310, 3081, 3622, 2309]

/-- The categories in the order of the counts dict of the source. -/
def catList : List Category :=
  [.halfChix, .halfRibs, .fullRibs, .sixOzMod, .eightOzMod, .corn, .grits, .pots]

/-- Does a line's PLU fall in the category's code list?  Models the pandas
`isin` test; a NaN PLU matches nothing. -/
def pluMatch (c : Category) (r : RawLine) : Bool :=
  match r.plu with
  | some p => decide (p ∈ pluList c)
  | none => false

/-- Sum of quantities of a list of lines, modelling `["Qty"].sum()`. -/
def qsum (ls : List RawLine) : ℚ := (ls.map (fun r => r.qty)).sum

/-- The per-category rational count of `calculate_interval_counts` before
integer conversion: the quantity sum over item lines whose PLU is in the
category's list plus the same sum over modifier lines.  This is a flat sum
over matching rows; the source has no grouping by order or line id. -/
def countQ (items mods : List RawLine) (c : Category) : ℚ :=
  qsum (items.filter (pluMatch c)) + qsum (mods.filter (pluMatch c))

/-- The Total entry added by `calculate_interval_counts` before integer
conversion: the sum of the eight category values. -/
def totalQ (items mods : List RawLine) : ℚ :=
  (catList.map (countQ items mods)).sum

/-- The returned dict of `calculate_interval_counts`, category part:
each value passed through Python `int()`. -/
def calculate_interval_counts (items mods : List RawLine) (c : Category) : ℤ :=
  truncQ (countQ items mods c)

/-- The returned dict of `calculate_interval_counts`, Total entry. -/
def interval_counts_total (items mods : List RawLine) : ℤ :=
  truncQ (totalQ items mods)

/-- Sum of all values of the returned dict (eight categories plus Total),
as used by the emission test `sum(counts.values()) > 0` in
`generate_report_data`. -/
def intervalCountsSum (items mods : List RawLine) : ℤ :=
  (catList.map (calculate_interval_counts items mods)).sum
    + interval_counts_total items mods

/-! ### Report rows and `generate_report_data`

`Row` models one row of the report dataframe: the Service and Interval
columns plus the eight integer category columns and Total.  The embedding
covers the 1-hour branch of `generate_report_data`, which is the branch
`main.py` invokes when storing reports. -/

structure Row where
  service : String
  interval : String
  halfChix : ℤ
  halfRibs : ℤ
  fullRibs : ℤ
  sixOzMod : ℤ
  eightOzMod : ℤ
  corn : ℤ
  grits : ℤ
  pots : ℤ
  total : ℤ
deriving DecidableEq

/-- The category column of a row. -/
def Row.get (r : Row) : Category → ℤ
  | .halfChix => r.halfChix
  | .halfRibs => r.halfRibs
  | .fullRibs => r.fullRibs
  | .sixOzMod => r.sixOzMod
  | .eightOzMod => r.eightOzMod
  | .corn => r.corn
  | .grits => r.grits
  | .pots => r.pots

/-- Sum of the eight category columns of a row. -/
def sumCats (r : Row) : ℤ := (catList.map r.get).sum

/-- The detail row appended by `generate_report_data` for a bucket:
service, interval label, the int-converted counts and the Total entry. -/
def mkDetailRow (service interval : String) (items mods : List RawLine) : Row :=
  { service := service
    interval := interval
    halfChix := calculate_interval_counts items mods .halfChix
    halfRibs := calculate_interval_counts items mods .halfRibs
    fullRibs := calculate_interval_counts items mods .fullRibs
    sixOzMod := calculate_interval_counts items mods .sixOzMod
    eightOzMod := calculate_interval_counts items mods .eightOzMod
    corn := calculate_interval_counts items mods .corn
    grits := calculate_interval_counts items mods .grits
    pots := calculate_interval_counts items mods .pots
    total := interval_counts_total items mods }

/-- Service start hour from `generate_report_data`:
6 for Lunch, else 16. -/
def startHour (service : String) : ℕ := if service = "Lunch" then 6 else 16

/-- Service end hour from `generate_report_data`:
16 for Lunch, else 24. -/
def endHour (service : String) : ℕ := if service = "Lunch" then 16 else 24

/-- The two service periods iterated by `generate_report_data`. -/
def serviceList : List String := ["Lunch", "Dinner"]

/-- Date filter of `generate_report_data`. -/
def matchesDate (d : ℕ) (r : RawLine) : Bool := r.date == d

/-- Service-period filter of `generate_report_data`: order hour inside the
half-open service hour range. -/
def inServiceHours (service : String) (r : RawLine) : Bool :=
  decide (startHour service ≤ r.hour) && decide (r.hour < endHour service)

/-- Hour filter of `generate_report_data`. -/
def matchesHour (h : ℕ) (r : RawLine) : Bool := r.hour == h

/-- The lines contributing to one hourly bucket: date filter, then service
filter, then hour filter, exactly as `generate_report_data` slices the
dataframes. -/
def intervalSlice (lines : List RawLine) (d : ℕ) (service : String) (h : ℕ) :
    List RawLine :=
  ((lines.filter (matchesDate d)).filter (inServiceHours service)).filter (matchesHour h)

/-- Sort key for the final detail sort of `generate_report_data`
(`sort_values` on Service then Interval): the character codes of the
service followed by a separator and the codes of the interval label. -/
def detailKey (r : Row) : List ℕ := strCodes r.service ++ 0 :: strCodes r.interval

/-- The sorted unique dates of the item lines, modelling
`sorted(items_df["Order Date"].dt.date.unique())`. -/
def reportDates (items : List RawLine) : List ℕ :=
  sortByKey (fun d => [d]) ((items.map (fun r => r.date)).dedup)

/-- The 1-hour branch of `generate_report_data`: for each date of the item
lines, for each service period and each hour of the period, compute the
interval counts and emit a detail row when the sum of the returned counts
dict is positive; finally sort by Service and Interval. -/
def generate_report_data (items mods : List RawLine) : List Row :=
  if items.isEmpty then []
  else
    sortByKey detailKey
      ((reportDates items).flatMap fun d =>
        serviceList.flatMap fun s =>
          (List.range' (startHour s) (endHour s - startHour s)).flatMap fun h =>
            if 0 < intervalCountsSum (intervalSlice items d s h) (intervalSlice mods d s h) then
              [mkDetailRow s (fmtHour h) (intervalSlice items d s h) (intervalSlice mods d s h)]
            else [])

/-! ### Report assembly in `main.py`

After retrieving the detail rows, `main.py` appends a per-service total row
for each service with data, appends a grand total row, tags every row with a
synthetic `_sort_order` derived from the Service string, and sorts by
(`_sort_order`, Service, Interval). -/

/-- Column-wise sum row, modelling `service_data[numeric_cols].sum()`:
every numeric column summed, Interval set to the empty string. -/
def colSumRow (service : String) (rows : List Row) : Row :=
  { service := service
    interval := ""
    halfChix := (rows.map (fun r => r.halfChix)).sum
    halfRibs := (rows.map (fun r => r.halfRibs)).sum
    fullRibs := (rows.map (fun r => r.fullRibs)).sum
    sixOzMod := (rows.map (fun r => r.sixOzMod)).sum
    eightOzMod := (rows.map (fun r => r.eightOzMod)).sum
    corn := (rows.map (fun r => r.corn)).sum
    grits := (rows.map (fun r => r.grits)).sum
    pots := (rows.map (fun r => r.pots)).sum
    total := (rows.map (fun r => r.total)).sum }

/-- Per-service total rows of `main.py`: one Service Total row per service
period that has at least one detail row. -/
def serviceTotalRows (details : List Row) : List Row :=
  serviceList.flatMap fun s =>
    let sData := details.filter (fun r => decide (r.service = s))
    if sData.isEmpty then [] else [colSumRow (s ++ " Total") sData]

/-- The grand total row of `main.py`: every numeric column summed over all
detail rows. -/
def grandTotalRow (details : List Row) : Row := colSumRow ("Grand Total") details

/-- The `_sort_order` value of `main.py`: rows whose Service contains
Total case-insensitively get 1, the row whose Service equals Grand Total
gets 2 (it is first set to 1 and then overwritten), all other rows keep 0.
The rank is computed from the Service string of the row. -/
def sortOrder (service : String) : ℕ :=
  if service = "Grand Total" then 2
  else if containsTotalCI service then 1
  else 0

/-- Sort key of the final display sort of `main.py`:
`_sort_order` first, then Service, then Interval. -/
def displayKey (r : Row) : List ℕ :=
  sortOrder r.service :: strCodes r.service ++ 0 :: strCodes r.interval

/-- The assembled report of `main.py`: detail rows, then the service total
rows, then the grand total row, sorted by (`_sort_order`, Service,
Interval).  Empty reports are left untouched. -/
def assembledReport (details : List Row) : List Row :=
  if details.isEmpty then []
  else
    sortByKey displayKey (details ++ serviceTotalRows details ++ [grandTotalRow details])

/-! ### `convert_to_30min_intervals`

Each hourly row whose Interval contains a colon and whose Service does not
contain Total (case-sensitively) is split into two half-hour rows.  The
first half of every numeric column is `int(v / 2 + 0.5)`; the second half is
the remainder.  Rows whose hour prefix fails to parse as an integer are kept
unchanged, and the result is sorted by Service and Interval. -/

/-- Does the string contain a colon? -/
def hasColon (s : String) : Bool := s.toList.any (fun c => c == ':')

/-- Parse a list of characters as a decimal natural number; models Python
`int()` on the digit strings that occur as hour prefixes (any other string
raises `ValueError`, modelled by `none`). -/
def parseDigits (cs : List Char) : Option ℕ :=
  if cs.isEmpty then none
  else if cs.all Char.isDigit then
    some (cs.foldl (fun a c => a * 10 + (c.toNat - 48)) 0)
  else none

/-- The hour prefix of an interval label: the characters before the first
colon, as split by `hour_str.split(":")[0]`, parsed as an integer. -/
def parseHourStr (s : String) : Option ℕ :=
  parseDigits (s.toList.takeWhile (fun c => !(c == ':')))

/-- First-half share of a numeric value: `int(v / 2 + 0.5)` computed in
exact arithmetic (the Python floats involved are exact on these dyadic
values). -/
def halfUp (v : ℤ) : ℤ := truncQ ((v : ℚ) / 2 + 1 / 2)

/-- The XX:00 half of a split row: every numeric column gets `halfUp`. -/
def firstHalfRow (r : Row) (h : ℕ) : Row :=
  { r with
    interval := pad2 h ++ ":00"
    halfChix := halfUp r.halfChix
    halfRibs := halfUp r.halfRibs
    fullRibs := halfUp r.fullRibs
    sixOzMod := halfUp r.sixOzMod
    eightOzMod := halfUp r.eightOzMod
    corn := halfUp r.corn
    grits := halfUp r.grits
    pots := halfUp r.pots
    total := halfUp r.total }

/-- The XX:30 half of a split row: every numeric column gets the remainder
of the original value after the first half. -/
def secondHalfRow (r : Row) (h : ℕ) : Row :=
  { r with
    interval := pad2 h ++ ":30"
    halfChix := r.halfChix - halfUp r.halfChix
    halfRibs := r.halfRibs - halfUp r.halfRibs
    fullRibs := r.fullRibs - halfUp r.fullRibs
    sixOzMod := r.sixOzMod - halfUp r.sixOzMod
    eightOzMod := r.eightOzMod - halfUp r.eightOzMod
    corn := r.corn - halfUp r.corn
    grits := r.grits - halfUp r.grits
    pots := r.pots - halfUp r.pots
    total := r.total - halfUp r.total }

/-- Per-row expansion step of `convert_to_30min_intervals`: totals rows and
rows without a parsable hour pass through unchanged, every other row is
replaced by its two half-hour rows. -/
def expandRow (r : Row) : List Row :=
  if !hasColon r.interval || containsTotalCS r.service then [r]
  else
    match parseHourStr r.interval with
    | none => [r]
    | some h => [firstHalfRow r h, secondHalfRow r h]

/-- `convert_to_30min_intervals`: expand each row, then sort the non-empty
result by Service and Interval. -/
def convert_to_30min_intervals (hourly : List Row) : List Row :=
  if hourly.isEmpty then hourly
  else if (hourly.flatMap expandRow).isEmpty then hourly.flatMap expandRow
  else sortByKey detailKey (hourly.flatMap expandRow)

/-! ### `save_report_data`

The database table `new_sales_data` is modelled as a list of stored rows;
the UNIQUE constraint on (location, order_date, service, interval_time) is
carried as a `Nodup` hypothesis on the stored keys.  `save_report_data`
deletes the rows of the given date and location inside one transaction and
then inserts each report row with `ON CONFLICT DO UPDATE` upsert
semantics. -/

/-- One stored row of `new_sales_data`. -/
structure DBRow where
  loc : String
  odate : ℕ
  service : String
  interval : String
  halfChix : ℤ
  halfRibs : ℤ
  fullRibs : ℤ
  sixOzMod : ℤ
  eightOzMod : ℤ
  corn : ℤ
  grits : ℤ
  pots : ℤ
  total : ℤ
deriving DecidableEq

/-- The UNIQUE key of `new_sales_data`:
(location, order_date, service, interval_time). -/
def dbKey (r : DBRow) : String × ℕ × String × String :=
  (r.loc, r.odate, r.service, r.interval)

/-- The stored row built from one report row for a date and location, as
bound by the INSERT statement of `save_report_data`. -/
def mkDBRow (d : ℕ) (l : String) (r : Row) : DBRow :=
  { loc := l
    odate := d
    service := r.service
    interval := r.interval
    halfChix := r.halfChix
    halfRibs := r.halfRibs
    fullRibs := r.fullRibs
    sixOzMod := r.sixOzMod
    eightOzMod := r.eightOzMod
    corn := r.corn
    grits := r.grits
    pots := r.pots
    total := r.total }

/-- The DELETE of `save_report_data`: remove every stored row whose
order_date and location match. -/
def deleteDateLoc (d : ℕ) (l : String) (st : List DBRow) : List DBRow :=
  st.filter (fun r => !(decide (r.odate = d) && decide (r.loc = l)))

/-- One INSERT ... ON CONFLICT DO UPDATE: replace the row with the same
unique key if present, otherwise append. -/
def upsert (x : DBRow) (st : List DBRow) : List DBRow :=
  if st.any (fun y => decide (dbKey y = dbKey x)) then
    st.map (fun y => if dbKey y = dbKey x then x else y)
  else st ++ [x]

/-- Insert a list of rows one after the other via `upsert`. -/
def insertAll (xs : List DBRow) (st : List DBRow) : List DBRow :=
  xs.foldl (fun acc x => upsert x acc) st

/-- `save_report_data`: empty reports are not written; otherwise delete the
rows of this (date, location) and insert the report rows. -/
def save_report_data (d : ℕ) (l : String) (report : List Row) (st : List DBRow) :
    List DBRow :=
  if report.isEmpty then st
  else insertAll (report.map (mkDBRow d l)) (deleteDateLoc d l st)

/-! ### Spec-modelled rounding

The specification asserts that fractional sums are converted with
round-half-up; this definition follows the words of the spec and exists only
to be compared against the `int()` truncation the code performs. -/

/-- Modelled from the spec: round-half-up integer conversion, the rounding
mode the specification claims for the emitted counts. -/
def specRoundHalfUp (q : ℚ) : ℤ := ⌊q + 1 / 2⌋

/-! ### Predicates and bucket abbreviations used by the theorems -/

/-- Every quantity in the list is an integer (the spec calls these
non-fractional quantities). -/
def IntQtys (ls : List RawLine) : Prop := ∀ r ∈ ls, ∃ n : ℤ, r.qty = (n : ℚ)

/-- Every quantity in the list is non-negative (invariant of the spec data
model). -/
def NonnegQtys (ls : List RawLine) : Prop := ∀ r ∈ ls, 0 ≤ r.qty

/-- Is the hour inside the service period's hour range, as filtered by
`generate_report_data`? -/
def hourInService (service : String) (h : ℕ) : Prop :=
  startHour service ≤ h ∧ h < endHour service

/-- The detail row `generate_report_data` would emit for the bucket of date
`d`, service `s` and hour `h`. -/
def bucketRow (items mods : List RawLine) (d : ℕ) (s : String) (h : ℕ) : Row :=
  mkDetailRow s (fmtHour h) (intervalSlice items d s h) (intervalSlice mods d s h)

/-! ### Concrete input records used in counterexamples and witnesses -/

/-- Modifier line, order O1 line L1, PLU 2307 (Corn), quantity 1. -/
def mWhite : RawLine :=
  { date := 0, hour := 12, minute := 5, orderId := "O1", lineId := "L1",
    name := "White Meat", plu := some 2307, qty := 1 }

/-- Second modifier line on the same order O1 and line L1, also PLU 2307
(Corn), quantity 1. -/
def mSide : RawLine :=
  { date := 0, hour := 12, minute := 5, orderId := "O1", lineId := "L1",
    name := "Corn Side", plu := some 2307, qty := 1 }

/-- The item line of the spec scenario: 1/2 Chicken Plate, quantity 2,
timestamp 12:30, code 81831. -/
def c2line : RawLine :=
  { date := 0, hour := 12, minute := 30, orderId := "O1", lineId := "L1",
    name := "1/2 Chicken Plate", plu := some 81831, qty := 2 }

/-- The detail row the code emits for the spec scenario. -/
def c2row : Row :=
  { service := "Lunch", interval := "12:00", halfChix := 2, halfRibs := 0,
    fullRibs := 2, sixOzMod := 0, eightOzMod := 0, corn := 0, grits := 0,
    pots := 0, total := 4 }

/-- An item line ordered at 03:00, before the 06:00 start of Lunch. -/
def earlyLine : RawLine :=
  { date := 0, hour := 3, minute := 0, orderId := "O9", lineId := "L9",
    name := "Corn", plu := some 2307, qty := 1 }

/-- An item line with code 81831, which appears in two category lists. -/
def dupLine : RawLine :=
  { date := 0, hour := 12, minute := 0, orderId := "O3", lineId := "L3",
    name := "1/2 Chicken Plate", plu := some 81831, qty := 1 }

/-- An item line with fractional quantity 3/2 on PLU 2307 (Corn). -/
def fracLine : RawLine :=
  { date := 0, hour := 12, minute := 0, orderId := "O4", lineId := "L4",
    name := "Corn", plu := some 2307, qty := 3/2 }

/-- An item line with quantity 1/2 on PLU 2307 (Corn) at 12:00. -/
def fracCorn : RawLine :=
  { date := 0, hour := 12, minute := 0, orderId := "O5", lineId := "L5",
    name := "Corn", plu := some 2307, qty := 1/2 }

/-- An item line with quantity 1/2 on PLU 2308 (Grits) at 12:10. -/
def fracGrits : RawLine :=
  { date := 0, hour := 12, minute := 10, orderId := "O6", lineId := "L6",
    name := "Grits", plu := some 2308, qty := 1/2 }

/-- An item line with quantity 1/2 on PLU 2310 (Pots) at 13:00. -/
def fracPots : RawLine :=
  { date := 0, hour := 13, minute := 0, orderId := "O7", lineId := "L7",
    name := "Pots", plu := some 2310, qty := 1/2 }

/-- An item line with quantity 1/2 on PLU 2307 (Corn) at 13:20. -/
def fracCornLate : RawLine :=
  { date := 0, hour := 13, minute := 20, orderId := "O8", lineId := "L8",
    name := "Corn", plu := some 2307, qty := 1/2 }

/-- The all-zero-categories row with Total 1 emitted for the two half
quantity lines at 12:00. -/
def zeroCatRow : Row :=
  { service := "Lunch", interval := "12:00", halfChix := 0, halfRibs := 0,
    fullRibs := 0, sixOzMod := 0, eightOzMod := 0, corn := 0, grits := 0,
    pots := 0, total := 1 }

/-- The all-zero-categories row with Total 1 emitted for the two half
quantity lines at 13:00. -/
def zeroCatRowLate : Row :=
  { service := "Lunch", interval := "13:00", halfChix := 0, halfRibs := 0,
    fullRibs := 0, sixOzMod := 0, eightOzMod := 0, corn := 0, grits := 0,
    pots := 0, total := 1 }

/-- An hourly database row used to exercise `convert_to_30min_intervals`. -/
def hourlyRow : Row :=
  { service := "Lunch", interval := "12:00", halfChix := 3, halfRibs := 2,
    fullRibs := 0, sixOzMod := 1, eightOzMod := 0, corn := 5, grits := 0,
    pots := 7, total := 18 }

/-- A Lunch Total row used to exercise the pass-through branch of
`convert_to_30min_intervals`. -/
def lunchTotalRow : Row :=
  { service := "Lunch Total", interval := "", halfChix := 3, halfRibs := 2,
    fullRibs := 0, sixOzMod := 1, eightOzMod := 0, corn := 5, grits := 0,
    pots := 7, total := 18 }

/-- The numeric columns of a report row: the eight categories and Total. -/
inductive NumCol where
  | cat (c : Category)
  | total
deriving DecidableEq

/-- The value of a numeric column of a row. -/
def colVal (r : Row) : NumCol → ℤ
  | .cat c => r.get c
  | .total => r.total

/-- A stored database row for a different (date, location) pair, used in the
`save_report_data` witness. -/
def otherDBRow : DBRow :=
  { loc := "Austin", odate := 7, service := "Lunch", interval := "12:00",
    halfChix := 1, halfRibs := 0, fullRibs := 0, sixOzMod := 0,
    eightOzMod := 0, corn := 0, grits := 0, pots := 0, total := 1 }

/-! ## Theorems

First the sorting toolkit lemmas, then supporting lemmas about the
embedded program, then one theorem per claim (with witnesses and
counterexamples). -/

theorem lexLtN_asymm : ∀ {x y : List ℕ}, lexLtN x y = true → lexLtN y x = false
  | [], [], h => by simp [lexLtN] at h
  | [], _ :: _, _ => by simp [lexLtN]
  | _ :: _, [], h => by simp [lexLtN] at h
  | a :: as, b :: bs, h => by
    simp only [lexLtN] at h ⊢
    by_cases hab : a < b
    · have : ¬ b < a := by omega
      simp [hab, this]
    · by_cases hba : b < a
      · simp [hab, hba] at h
      · simp only [hab, hba, if_false] at h ⊢
        simp [lexLtN_asymm h]

theorem lexLtN_trans : ∀ {x y z : List ℕ},
    lexLtN x y = true → lexLtN y z = true → lexLtN x z = true
  | [], [], _, h, _ => by simp [lexLtN] at h
  | [], _ :: _, [], _, h => by simp [lexLtN] at h
  | [], _ :: _, _ :: _, _, _ => by simp [lexLtN]
  | _ :: _, [], _, h, _ => by simp [lexLtN] at h
  | _ :: _, _ :: _, [], _, h => by simp [lexLtN] at h
  | a :: as, b :: bs, c :: cs, h1, h2 => by
    simp only [lexLtN] at h1 h2 ⊢
    by_cases hab : a < b
    · by_cases hbc : b < c
      · have hac : a < c := by omega
        simp [hac]
      · by_cases hcb : c < b
        · rw [if_neg hbc, if_pos hcb] at h2
          exact absurd h2 (by simp)
        · have hbc2 : b = c := by omega
          subst hbc2
          simp [hab]
    · by_cases hba : b < a
      · rw [if_neg hab, if_pos hba] at h1
        exact absurd h1 (by simp)
      · have hab2 : a = b := by omega
        subst hab2
        rw [if_neg hab, if_neg hba] at h1
        by_cases hbc : a < c
        · simp [hbc]
        · by_cases hcb : c < a
          · rw [if_neg hbc, if_pos hcb] at h2
            exact absurd h2 (by simp)
          · rw [if_neg hbc, if_neg hcb] at h2
            rw [if_neg hbc, if_neg hcb]
            exact lexLtN_trans h1 h2

theorem lexLtN_false_head {a b : ℕ} {as bs : List ℕ}
    (h : lexLtN (a :: as) (b :: bs) = false) : b ≤ a := by
  simp only [lexLtN] at h
  by_cases hab : a < b
  · simp [hab] at h
  · omega

section SortToolkitLemmas

variable {α : Type} (key : α → List ℕ)

theorem mem_insBy {x a : α} : ∀ {l : List α}, x ∈ insBy key a l ↔ x = a ∨ x ∈ l
  | [] => by simp [insBy]
  | b :: l => by
    simp only [insBy]
    by_cases h : lexLtN (key a) (key b) = true
    · rw [if_pos h]
      simp
    · rw [if_neg h]
      simp only [List.mem_cons, @mem_insBy x a l]
      tauto

theorem perm_insBy (a : α) : ∀ l : List α, (insBy key a l).Perm (a :: l)
  | [] => by simp [insBy]
  | b :: l => by
    simp only [insBy]
    by_cases h : lexLtN (key a) (key b) = true
    · simp [h]
    · simp only [h, if_false]
      exact ((perm_insBy a l).cons b).trans (List.Perm.swap a b l)

theorem foldl_insBy_perm : ∀ (l acc : List α),
    (l.foldl (fun acc a => insBy key a acc) acc).Perm (acc ++ l)
  | [], acc => by simp
  | a :: l, acc => by
    simp only [List.foldl_cons]
    refine (foldl_insBy_perm l (insBy key a acc)).trans ?_
    refine (List.Perm.append_right l ((perm_insBy key a acc))).trans ?_
    simpa using
      (show (acc ++ a :: l).Perm (a :: (acc ++ l)) from List.perm_middle).symm

theorem sortByKey_perm (l : List α) : (sortByKey key l).Perm l := by
  simpa [sortByKey] using foldl_insBy_perm key l []

theorem mem_sortByKey {x : α} {l : List α} : x ∈ sortByKey key l ↔ x ∈ l :=
  (sortByKey_perm key l).mem_iff

theorem pairwise_insBy {a : α} :
    ∀ {l : List α}, l.Pairwise (keyLe key) → (insBy key a l).Pairwise (keyLe key)
  | [], _ => by simp [insBy]
  | b :: l, h => by
    simp only [insBy]
    rcases List.pairwise_cons.mp h with ⟨hb, hl⟩
    by_cases hab : lexLtN (key a) (key b) = true
    · rw [if_pos hab]
      refine List.pairwise_cons.mpr ⟨?_, h⟩
      intro x hx
      rcases List.mem_cons.mp hx with rfl | hx
      · exact lexLtN_asymm hab
      · have hbx := hb x hx
        unfold keyLe at hbx ⊢
        by_contra hcon
        have hxa : lexLtN (key x) (key a) = true := by
          cases hxa : lexLtN (key x) (key a)
          · exact absurd hxa hcon
          · rfl
        have := lexLtN_trans hxa hab
        rw [this] at hbx
        exact Bool.true_eq_false.mp hbx
    · rw [if_neg hab]
      refine List.pairwise_cons.mpr ⟨?_, pairwise_insBy hl⟩
      intro x hx
      rcases (mem_insBy key).mp hx with rfl | hx
      · unfold keyLe
        cases hv : lexLtN (key x) (key b)
        · rfl
        · exact absurd hv hab
      · exact hb x hx

theorem sortByKey_pairwise (l : List α) : (sortByKey key l).Pairwise (keyLe key) := by
  rw [sortByKey]
  generalize hacc : ([] : List α) = acc
  have hsorted : acc.Pairwise (keyLe key) := by rw [← hacc]; simp
  clear hacc
  induction l generalizing acc with
  | nil => simpa using hsorted
  | cons a l ih =>
    simp only [List.foldl_cons]
    exact ih (insBy key a acc) (pairwise_insBy key hsorted)

end SortToolkitLemmas

theorem truncQ_intCast (n : ℤ) : truncQ (n : ℚ) = n := by
  simp [truncQ, Rat.num_intCast, Rat.den_intCast, Int.tdiv_one]

theorem truncQ_of_nonneg {q : ℚ} (h : 0 ≤ q) : truncQ q = ⌊q⌋ := by
  rw [truncQ, Rat.floor_def]
  exact Int.tdiv_eq_ediv (Rat.num_nonneg.mpr h) (Int.natCast_nonneg _)

theorem catList_complete (c : Category) : c ∈ catList := by
  cases c <;> simp [catList]

/-! ### Supporting lemmas about classification and counting -/

theorem qsum_nonneg {ls : List RawLine} (h : ∀ r ∈ ls, 0 ≤ r.qty) : 0 ≤ qsum ls := by
  refine List.sum_nonneg ?_
  intro x hx
  rcases List.mem_map.mp hx with ⟨r, hr, rfl⟩
  exact h r hr

theorem qsum_int {ls : List RawLine} (h : ∀ r ∈ ls, ∃ n : ℤ, r.qty = (n : ℚ)) :
    ∃ n : ℤ, qsum ls = (n : ℚ) := by
  induction ls with
  | nil => exact ⟨0, by simp [qsum]⟩
  | cons r t ih =>
    obtain ⟨n, hn⟩ := h r (by simp)
    obtain ⟨m, hm⟩ := ih (fun x hx => h x (by simp [hx]))
    refine ⟨n + m, ?_⟩
    simp only [qsum, List.map_cons, List.sum_cons] at hm ⊢
    rw [hn, hm]
    push_cast
    ring

theorem countQ_nonneg {items mods : List RawLine} (hi : NonnegQtys items)
    (hm : NonnegQtys mods) (c : Category) : 0 ≤ countQ items mods c := by
  have h1 : 0 ≤ qsum (items.filter (pluMatch c)) :=
    qsum_nonneg fun r hr => hi r (List.mem_of_mem_filter hr)
  have h2 : 0 ≤ qsum (mods.filter (pluMatch c)) :=
    qsum_nonneg fun r hr => hm r (List.mem_of_mem_filter hr)
  rw [countQ]
  positivity

theorem countQ_int {items mods : List RawLine} (hi : IntQtys items)
    (hm : IntQtys mods) (c : Category) : ∃ n : ℤ, countQ items mods c = (n : ℚ) := by
  obtain ⟨n, hn⟩ := qsum_int fun r hr => hi r (List.mem_of_mem_filter hr)
  obtain ⟨m, hm2⟩ := qsum_int fun r hr => hm r (List.mem_of_mem_filter hr)
  refine ⟨n + m, ?_⟩
  rw [countQ, hn, hm2]
  push_cast
  ring

theorem calc_cast {items mods : List RawLine} (hi : IntQtys items)
    (hm : IntQtys mods) (c : Category) :
    (calculate_interval_counts items mods c : ℚ) = countQ items mods c := by
  obtain ⟨n, hn⟩ := countQ_int hi hm c
  rw [calculate_interval_counts, hn, truncQ_intCast]

theorem calc_nonneg {items mods : List RawLine} (hi : NonnegQtys items)
    (hm : NonnegQtys mods) (c : Category) :
    0 ≤ calculate_interval_counts items mods c := by
  rw [calculate_interval_counts, truncQ_of_nonneg (countQ_nonneg hi hm c)]
  exact Int.floor_nonneg.mpr (countQ_nonneg hi hm c)

theorem sum_calc_cast {items mods : List RawLine} (hi : IntQtys items)
    (hm : IntQtys mods) :
    ∀ cs : List Category,
      ((cs.map (calculate_interval_counts items mods)).sum : ℚ)
        = (cs.map (countQ items mods)).sum
  | [] => by simp
  | c :: cs => by
    simp only [List.map_cons, List.sum_cons]
    rw [Int.cast_add, calc_cast hi hm c, sum_calc_cast hi hm cs]

theorem total_eq_sum_int {items mods : List RawLine} (hi : IntQtys items)
    (hm : IntQtys mods) :
    interval_counts_total items mods
      = (catList.map (calculate_interval_counts items mods)).sum := by
  rw [interval_counts_total, totalQ, ← sum_calc_cast hi hm catList, truncQ_intCast]

theorem intervalCountsSum_int {items mods : List RawLine} (hi : IntQtys items)
    (hm : IntQtys mods) :
    intervalCountsSum items mods
      = 2 * (catList.map (calculate_interval_counts items mods)).sum := by
  rw [intervalCountsSum, total_eq_sum_int hi hm]
  ring

theorem sum_pos_iff_ne {l : List ℤ} (h : ∀ x ∈ l, 0 ≤ x) :
    0 < l.sum ↔ ∃ x ∈ l, x ≠ 0 := by
  induction l with
  | nil => simp
  | cons a t ih =>
    have ha := h a (by simp)
    have ht : ∀ x ∈ t, (0:ℤ) ≤ x := fun x hx => h x (by simp [hx])
    have hts : 0 ≤ t.sum := List.sum_nonneg ht
    simp only [List.sum_cons, List.mem_cons]
    constructor
    · intro hpos
      by_cases haz : a = 0
      · subst haz
        obtain ⟨x, hx, hxne⟩ := (ih ht).mp (by omega)
        exact ⟨x, Or.inr hx, hxne⟩
      · exact ⟨a, Or.inl rfl, haz⟩
    · rintro ⟨x, hx | hx, hxne⟩
      · subst hx
        have := (ih ht)
        omega
      · have := (ih ht).mpr ⟨x, hx, hxne⟩
        omega

theorem get_mkDetailRow (s i : String) (items mods : List RawLine) (c : Category) :
    (mkDetailRow s i items mods).get c = calculate_interval_counts items mods c := by
  cases c <;> rfl

theorem sumCats_mkDetailRow (s i : String) (items mods : List RawLine) :
    sumCats (mkDetailRow s i items mods)
      = (catList.map (calculate_interval_counts items mods)).sum := by
  simp [sumCats, catList, get_mkDetailRow]

/-! ### Supporting lemmas about `generate_report_data` -/

theorem mem_reportDates {items : List RawLine} {d : ℕ} :
    d ∈ reportDates items ↔ d ∈ items.map (fun r => r.date) := by
  rw [reportDates, mem_sortByKey, List.mem_dedup]

theorem start_le_end {s : String} (hs : s ∈ serviceList) : startHour s ≤ endHour s := by
  simp only [serviceList, List.mem_cons, List.not_mem_nil, or_false] at hs
  rcases hs with rfl | rfl <;> decide

theorem mem_generate_elim {items mods : List RawLine} {row : Row}
    (h : row ∈ generate_report_data items mods) :
    ∃ d s hh, d ∈ items.map (fun r => r.date) ∧ s ∈ serviceList ∧
      hourInService s hh ∧
      0 < intervalCountsSum (intervalSlice items d s hh) (intervalSlice mods d s hh) ∧
      row = bucketRow items mods d s hh := by
  rw [generate_report_data] at h
  by_cases hemp : items.isEmpty
  · rw [if_pos hemp] at h
    exact absurd h (List.not_mem_nil row)
  · rw [if_neg hemp, mem_sortByKey, List.mem_flatMap] at h
    obtain ⟨d, hd, h⟩ := h
    rw [List.mem_flatMap] at h
    obtain ⟨s, hs, h⟩ := h
    rw [List.mem_flatMap] at h
    obtain ⟨hh, hhmem, h⟩ := h
    by_cases hpos :
      0 < intervalCountsSum (intervalSlice items d s hh) (intervalSlice mods d s hh)
    · rw [if_pos hpos, List.mem_singleton] at h
      refine ⟨d, s, hh, mem_reportDates.mp hd, hs, ?_, hpos, h⟩
      have hb := List.mem_range'_1.mp hhmem
      have hse := start_le_end hs
      exact ⟨hb.1, by omega⟩
    · rw [if_neg hpos] at h
      exact absurd h (List.not_mem_nil row)

theorem mem_generate_intro {items mods : List RawLine} {d : ℕ} {s : String} {hh : ℕ}
    (hd : d ∈ items.map (fun r => r.date)) (hs : s ∈ serviceList)
    (hhour : hourInService s hh)
    (hpos : 0 < intervalCountsSum (intervalSlice items d s hh) (intervalSlice mods d s hh)) :
    bucketRow items mods d s hh ∈ generate_report_data items mods := by
  have hne : ¬ items.isEmpty = true := by
    cases items
    · simp at hd
    · simp
  rw [generate_report_data, if_neg hne, mem_sortByKey, List.mem_flatMap]
  refine ⟨d, mem_reportDates.mpr hd, ?_⟩
  rw [List.mem_flatMap]
  refine ⟨s, hs, ?_⟩
  rw [List.mem_flatMap]
  refine ⟨hh, ?_, ?_⟩
  · rw [List.mem_range'_1]
    have hse := start_le_end hs
    have h2 := hhour.2
    exact ⟨hhour.1, by omega⟩
  · rw [if_pos hpos]
    simp [bucketRow]

theorem service_mem_of_generate {items mods : List RawLine} {row : Row}
    (h : row ∈ generate_report_data items mods) :
    row.service = "Lunch" ∨ row.service = "Dinner" := by
  obtain ⟨d, s, hh, _, hs, _, _, hrow⟩ := mem_generate_elim h
  subst hrow
  simp only [serviceList, List.mem_cons, List.not_mem_nil, or_false] at hs
  rcases hs with rfl | rfl
  · left
    rfl
  · right
    rfl

/-! ### Supporting lemmas about the `main.py` assembly -/

theorem sum_total_partition (l : List Row)
    (h : ∀ r ∈ l, r.service = "Lunch" ∨ r.service = "Dinner") :
    ((l.filter (fun r => decide (r.service = "Lunch"))).map (fun r => r.total)).sum
      + ((l.filter (fun r => decide (r.service = "Dinner"))).map (fun r => r.total)).sum
      = (l.map (fun r => r.total)).sum := by
  induction l with
  | nil => simp
  | cons r t ih =>
    have hr := h r (by simp)
    have ih2 := ih (fun x hx => h x (by simp [hx]))
    rcases hr with hl | hl
    · have hnd : ¬ (r.service = "Dinner") := by
        rw [hl]
        decide
      simp [List.filter_cons, hl, hnd]
      try omega
    · have hnl : ¬ (r.service = "Lunch") := by
        rw [hl]
        decide
      simp [List.filter_cons, hl, hnl]
      try omega

theorem totals_if_sum (s : String) (l : List Row) :
    ((if l.isEmpty then ([] : List Row) else [colSumRow s l]).map (fun r => r.total)).sum
      = (l.map (fun r => r.total)).sum := by
  by_cases hc : l.isEmpty
  · rw [if_pos hc, List.isEmpty_iff.mp hc]
  · rw [if_neg hc]
    simp [colSumRow]

theorem serviceTotalRows_sum (details : List Row)
    (h : ∀ r ∈ details, r.service = "Lunch" ∨ r.service = "Dinner") :
    ((serviceTotalRows details).map (fun r => r.total)).sum
      = (details.map (fun r => r.total)).sum := by
  rw [serviceTotalRows]
  simp only [serviceList, List.flatMap_cons, List.flatMap_nil, List.append_nil]
  rw [List.map_append, List.sum_append, totals_if_sum, totals_if_sum,
    sum_total_partition details h]

/-! ## Claim C1 -/

/-- Claim C1 is false on the code: two modifier lines sharing
(order_id, line_id) = (O1, L1), both with PLU 2307 (Corn) and quantity 1,
make the Corn count 2, not 1.  `calculate_interval_counts` sums the
quantities of all matching rows flatly; it never groups by
(order_id, line_id). -/
theorem dedup_claim_counterexample :
    mWhite.orderId = mSide.orderId ∧ mWhite.lineId = mSide.lineId ∧
    calculate_interval_counts [] [mWhite, mSide] Category.corn = 2 ∧
    calculate_interval_counts [] [mWhite, mSide] Category.corn ≠ 1 := by
  have h2 : calculate_interval_counts [] [mWhite, mSide] Category.corn = 2 := by
    simp [calculate_interval_counts, countQ, qsum, mWhite, mSide, pluMatch,
      pluList, truncQ]
    norm_num
  refine ⟨rfl, rfl, h2, ?_⟩
  rw [h2]
  decide

/-- Claim C1 (amended): the aggregation performs no grouping by
(order_id, line_id).  The candidate rows are summed flatly, so two modifier
rows that share (order_id, line_id) and classify to the same category each
contribute their own quantity to that category's count. -/
theorem flat_sum_per_row (m1 m2 : RawLine) (c : Category) (p : ℤ)
    (_hid : m1.orderId = m2.orderId) (_hlid : m1.lineId = m2.lineId)
    (hp1 : m1.plu = some p) (hp2 : m2.plu = some p) (hmem : p ∈ pluList c) :
    countQ [] [m1, m2] c = m1.qty + m2.qty := by
  have hb1 : pluMatch c m1 = true := by
    rw [pluMatch, hp1]
    simpa using hmem
  have hb2 : pluMatch c m2 = true := by
    rw [pluMatch, hp2]
    simpa using hmem
  simp [countQ, qsum, List.filter_cons, hb1, hb2]

/-- Witness for `flat_sum_per_row` at the concrete rows of the
counterexample. -/
theorem flat_sum_per_row_witness :
    mWhite.orderId = mSide.orderId ∧ mWhite.lineId = mSide.lineId ∧
    countQ [] [mWhite, mSide] Category.corn = mWhite.qty + mSide.qty :=
  ⟨rfl, rfl,
    flat_sum_per_row mWhite mSide Category.corn 2307 rfl rfl rfl rfl (by decide)⟩

/-! ## Claim C4 -/

/-- Claim C4 is false on the code: the rule table `plu_mapping` maps code
81831 to both 1/2 Chix and Full Ribs; the table loads as a plain dict
literal with no duplicate detection and no error, and a line carrying that
code contributes its quantity to both categories, so classification is not
first-match-wins and a classified line is not limited to one category. -/
theorem duplicate_code_counterexample :
    (81831 : ℤ) ∈ pluList Category.halfChix ∧
    (81831 : ℤ) ∈ pluList Category.fullRibs ∧
    calculate_interval_counts [dupLine] [] Category.halfChix = 1 ∧
    calculate_interval_counts [dupLine] [] Category.fullRibs = 1 := by
  refine ⟨by decide, by decide, ?_, ?_⟩ <;>
    · simp [calculate_interval_counts, countQ, qsum, dupLine, pluMatch,
        pluList, truncQ]
      try norm_num

/-- Claim C4 (amended): the loader performs no duplicate-code check (81831
appears under both 1/2 Chix and Full Ribs, 3009 under both 1/2 Chix and
1/2 Ribs), and classification tests each category's code list
independently: a line whose code occurs in the lists of two different
categories contributes its full quantity to both. -/
theorem code_in_two_categories (r : RawLine) (p : ℤ) (c1 c2 : Category)
    (_hne : c1 ≠ c2) (h1 : p ∈ pluList c1) (h2 : p ∈ pluList c2)
    (hp : r.plu = some p) :
    countQ [r] [] c1 = r.qty ∧ countQ [r] [] c2 = r.qty := by
  have hb1 : pluMatch c1 r = true := by
    rw [pluMatch, hp]
    simpa using h1
  have hb2 : pluMatch c2 r = true := by
    rw [pluMatch, hp]
    simpa using h2
  constructor <;> simp [countQ, qsum, List.filter_cons, hb1, hb2]

/-- Witness for `code_in_two_categories` at code 81831. -/
theorem code_in_two_categories_witness :
    Category.halfChix ≠ Category.fullRibs ∧
    countQ [dupLine] [] Category.halfChix = dupLine.qty ∧
    countQ [dupLine] [] Category.fullRibs = dupLine.qty :=
  ⟨by decide,
    (code_in_two_categories dupLine 81831 Category.halfChix Category.fullRibs
      (by decide) (by decide) (by decide) rfl).1,
    (code_in_two_categories dupLine 81831 Category.halfChix Category.fullRibs
      (by decide) (by decide) (by decide) rfl).2⟩

/-! ## Claim C5 -/

/-- Claim C5 is false on the code: a category whose summed quantity is 3/2
is emitted as 1, because the dict comprehension applies Python `int()`,
which truncates toward zero; round-half-up would give 2. -/
theorem truncation_counterexample :
    countQ [fracLine] [] Category.corn = 3/2 ∧
    calculate_interval_counts [fracLine] [] Category.corn = 1 ∧
    specRoundHalfUp (3/2) = 2 ∧
    (1 : ℤ) ≠ 2 := by
  refine ⟨?_, ?_, ?_, by decide⟩
  · simp [countQ, qsum, fracLine, pluMatch, pluList]
  · simp [calculate_interval_counts, countQ, qsum, fracLine, pluMatch,
      pluList, truncQ]
    norm_num
    decide
  · rw [specRoundHalfUp, (by norm_num : (3/2 + 1/2 : ℚ) = ((2 : ℤ) : ℚ)),
      Int.floor_intCast]

/-- Claim C5 (amended): on non-negative quantities the integer conversion in
`calculate_interval_counts` is truncation toward zero (equivalently the
floor), not round-half-up: every emitted category value and the Total are
the floors of the exact rational sums. -/
theorem conversion_is_floor (items mods : List RawLine) (c : Category)
    (hi : NonnegQtys items) (hm : NonnegQtys mods) :
    calculate_interval_counts items mods c = ⌊countQ items mods c⌋ ∧
    interval_counts_total items mods = ⌊totalQ items mods⌋ := by
  have htq : 0 ≤ totalQ items mods := by
    refine List.sum_nonneg ?_
    intro x hx
    rcases List.mem_map.mp hx with ⟨c2, _, rfl⟩
    exact countQ_nonneg hi hm c2
  exact ⟨truncQ_of_nonneg (countQ_nonneg hi hm c),
    truncQ_of_nonneg htq⟩

/-- Witness for `conversion_is_floor` at the 3/2-quantity line. -/
theorem conversion_is_floor_witness :
    NonnegQtys [fracLine] ∧ NonnegQtys ([] : List RawLine) ∧
    (calculate_interval_counts [fracLine] [] Category.corn
        = ⌊countQ [fracLine] [] Category.corn⌋ ∧
      interval_counts_total [fracLine] [] = ⌊totalQ [fracLine] []⌋) := by
  have h1 : NonnegQtys [fracLine] := by
    intro r hr
    rw [List.mem_singleton] at hr
    subst hr
    norm_num [fracLine]
  have h2 : NonnegQtys ([] : List RawLine) := by
    intro r hr
    exact absurd hr (List.not_mem_nil r)
  exact ⟨h1, h2, conversion_is_floor [fracLine] [] Category.corn h1 h2⟩

/-! ## Claim C3 -/

/-- Claim C3 is false on the code: a valid 03:00 order line is assigned to
no bucket at all.  The Lunch filter keeps hours in [6, 16) and the Dinner
filter keeps hours in [16, 24); an hour in [0, 6) passes neither filter, so
the line vanishes and the generated report is empty instead of containing a
Dinner bucket. -/
theorem bucket_totality_counterexample :
    generate_report_data [earlyLine] [] = [] ∧
    earlyLine.qty = 1 ∧
    ¬ hourInService ("Lunch") earlyLine.hour ∧
    ¬ hourInService ("Dinner") earlyLine.hour := by
  refine ⟨?_, rfl, by unfold hourInService; decide, by unfold hourInService; decide⟩
  simp [generate_report_data, reportDates, sortByKey, insBy, earlyLine,
    intervalSlice, matchesDate, matchesHour, inServiceHours, serviceList,
    startHour, endHour, intervalCountsSum, calculate_interval_counts,
    interval_counts_total, countQ, totalQ, catList, qsum, pluMatch, pluList,
    truncQ, mkDetailRow, fmtHour, pad2, List.range', detailKey]

/-- Claim C3 (amended): bucketing is total only on hours 6..23: an hour in
[6, 16) belongs to Lunch and not Dinner, an hour in [16, 24) belongs to
Dinner and not Lunch, and an hour in [0, 6) belongs to no service period at
all, so such lines are dropped from the report rather than bucketed. -/
theorem service_hours_partition (h : ℕ) (hlt : h < 24) :
    (6 ≤ h → (hourInService ("Lunch") h ↔ h < 16)
      ∧ (hourInService ("Dinner") h ↔ 16 ≤ h)
      ∧ ¬ (hourInService ("Lunch") h ∧ hourInService ("Dinner") h))
    ∧ (h < 6 → ¬ hourInService ("Lunch") h ∧ ¬ hourInService ("Dinner") h) := by
  simp [hourInService, startHour, endHour]
  omega

/-- Witness for `service_hours_partition` at hour 12. -/
theorem service_hours_partition_witness :
    12 < 24 ∧
    ((6 ≤ 12 → (hourInService ("Lunch") 12 ↔ 12 < 16)
        ∧ (hourInService ("Dinner") 12 ↔ 16 ≤ 12)
        ∧ ¬ (hourInService ("Lunch") 12 ∧ hourInService ("Dinner") 12))
      ∧ (12 < 6 → ¬ hourInService ("Lunch") 12 ∧ ¬ hourInService ("Dinner") 12)) :=
  ⟨by decide, service_hours_partition 12 (by decide)⟩

/-! ## Claim C2 -/

/-- Claim C2 is false on the code: for the single item line 1/2 Chicken
Plate, quantity 2, 12:30, code 81831, the detail row carries Full Ribs = 2
as well (81831 is also in the Full Ribs code list) and Total = 4, not the
claimed all-other-categories-zero and Total = 2. -/
theorem scenario_counterexample :
    generate_report_data [c2line] [] = [c2row] ∧
    c2row.service = "Lunch" ∧ c2row.interval = "12:00" ∧
    c2row.halfChix = 2 ∧ c2row.fullRibs = 2 ∧ c2row.total = 4 ∧
    c2row.fullRibs ≠ 0 ∧ c2row.total ≠ 2 := by
  refine ⟨?_, rfl, rfl, rfl, rfl, rfl, by decide, by decide⟩
  simp [generate_report_data, reportDates, sortByKey, insBy, c2line, c2row,
    intervalSlice, matchesDate, matchesHour, inServiceHours, serviceList,
    startHour, endHour, intervalCountsSum, calculate_interval_counts,
    interval_counts_total, countQ, totalQ, catList, qsum, pluMatch, pluList,
    truncQ, mkDetailRow, fmtHour, pad2, List.range', detailKey]
  norm_num
  decide

/-- Claim C2 (amended): for that input the report contains exactly one
detail row {Lunch, 12:00} with 1/2 Chix = 2, Full Ribs = 2, every other
category 0 and Total = 4, plus a Lunch Total row and a Grand Total row each
showing 1/2 Chix = 2, Full Ribs = 2 and Total = 4. -/
theorem scenario_report :
    assembledReport (generate_report_data [c2line] []) =
      [c2row,
       { service := "Lunch Total", interval := "", halfChix := 2, halfRibs := 0,
         fullRibs := 2, sixOzMod := 0, eightOzMod := 0, corn := 0, grits := 0,
         pots := 0, total := 4 },
       { service := "Grand Total", interval := "", halfChix := 2, halfRibs := 0,
         fullRibs := 2, sixOzMod := 0, eightOzMod := 0, corn := 0, grits := 0,
         pots := 0, total := 4 }] := by
  have h1 : generate_report_data [c2line] [] = [c2row] := by
    simp [generate_report_data, reportDates, sortByKey, insBy, c2line, c2row,
      intervalSlice, matchesDate, matchesHour, inServiceHours, serviceList,
      startHour, endHour, intervalCountsSum, calculate_interval_counts,
      interval_counts_total, countQ, totalQ, catList, qsum, pluMatch, pluList,
      truncQ, mkDetailRow, fmtHour, pad2, List.range', detailKey]
    norm_num
    decide
  rw [h1]
  decide

/-! ## Claim C6 -/

theorem mem_slice_sub {lines : List RawLine} {d : ℕ} {s : String} {h : ℕ}
    {r : RawLine} (hr : r ∈ intervalSlice lines d s h) : r ∈ lines := by
  rw [intervalSlice] at hr
  exact List.mem_of_mem_filter (List.mem_of_mem_filter (List.mem_of_mem_filter hr))

/-- Claim C6 is false on the code as universally stated: with fractional
quantities (two half-quantity lines on Corn and Grits at 12:00) the emitted
detail row has every category count 0 but Total 1, because each category and
the Total are truncated separately; the sum of the category counts is 0 and
does not equal the Total field. -/
theorem conservation_counterexample :
    generate_report_data [fracCorn, fracGrits] [] = [zeroCatRow] ∧
    sumCats zeroCatRow = 0 ∧ zeroCatRow.total = 1 ∧
    sumCats zeroCatRow ≠ zeroCatRow.total := by
  refine ⟨?_, by decide, rfl, by decide⟩
  simp [generate_report_data, reportDates, sortByKey, insBy, fracCorn,
    fracGrits, zeroCatRow, intervalSlice, matchesDate, matchesHour,
    inServiceHours, serviceList, startHour, endHour, intervalCountsSum,
    calculate_interval_counts, interval_counts_total, countQ, totalQ, catList,
    qsum, pluMatch, pluList, truncQ, mkDetailRow, fmtHour, pad2, List.range',
    detailKey]
  norm_num
  decide

/-- Claim C6 (amended): in every report generated from lines with integral
quantities, each detail row's Total equals the sum of its category counts;
and unconditionally, each service subtotal row's Total is the sum of the
Totals of that service's detail rows, and the Grand Total row's Total equals
the sum of the service subtotal rows' Totals.  (With fractional quantities
the per-row equation can fail because every cell is truncated separately.) -/
theorem conservation (items mods : List RawLine) (row : Row) (s : String)
    (hrow : row ∈ generate_report_data items mods)
    (hs : s ∈ serviceList)
    (hne : ¬ ((generate_report_data items mods).filter
        (fun r => decide (r.service = s))).isEmpty = true) :
    (IntQtys (items ++ mods) → row.total = sumCats row)
    ∧ colSumRow (s ++ " Total")
        ((generate_report_data items mods).filter (fun r => decide (r.service = s)))
        ∈ serviceTotalRows (generate_report_data items mods)
    ∧ (colSumRow (s ++ " Total")
        ((generate_report_data items mods).filter (fun r => decide (r.service = s)))).total
      = (((generate_report_data items mods).filter
          (fun r => decide (r.service = s))).map (fun r => r.total)).sum
    ∧ (grandTotalRow (generate_report_data items mods)).total
      = ((serviceTotalRows (generate_report_data items mods)).map (fun r => r.total)).sum := by
  refine ⟨?_, ?_, rfl, ?_⟩
  · intro hint
    have hintI : IntQtys items := fun r hr => hint r (List.mem_append_left _ hr)
    have hintM : IntQtys mods := fun r hr => hint r (List.mem_append_right _ hr)
    obtain ⟨d, s2, hh, _, _, _, _, hrw⟩ := mem_generate_elim hrow
    subst hrw
    have hiI : IntQtys (intervalSlice items d s2 hh) :=
      fun r hr => hintI r (mem_slice_sub hr)
    have hiM : IntQtys (intervalSlice mods d s2 hh) :=
      fun r hr => hintM r (mem_slice_sub hr)
    rw [bucketRow, sumCats_mkDetailRow]
    exact total_eq_sum_int hiI hiM
  · rw [serviceTotalRows, List.mem_flatMap]
    refine ⟨s, hs, ?_⟩
    rw [if_neg hne]
    exact List.mem_singleton.mpr rfl
  · rw [serviceTotalRows_sum _ (fun r hr => service_mem_of_generate hr)]
    rfl

/-- Witness for `conservation` at the single-line scenario input. -/
theorem conservation_witness :
    c2row ∈ generate_report_data [c2line] [] ∧
    "Lunch" ∈ serviceList ∧
    ¬ ((generate_report_data [c2line] []).filter
        (fun r => decide (r.service = "Lunch"))).isEmpty = true ∧
    ((IntQtys ([c2line] ++ []) → c2row.total = sumCats c2row)
      ∧ colSumRow ("Lunch" ++ " Total")
          ((generate_report_data [c2line] []).filter
            (fun r => decide (r.service = "Lunch")))
          ∈ serviceTotalRows (generate_report_data [c2line] [])
      ∧ (colSumRow ("Lunch" ++ " Total")
          ((generate_report_data [c2line] []).filter
            (fun r => decide (r.service = "Lunch")))).total
        = (((generate_report_data [c2line] []).filter
            (fun r => decide (r.service = "Lunch"))).map (fun r => r.total)).sum
      ∧ (grandTotalRow (generate_report_data [c2line] [])).total
        = ((serviceTotalRows (generate_report_data [c2line] [])).map
            (fun r => r.total)).sum) := by
  have h1 : generate_report_data [c2line] [] = [c2row] := by
    simp [generate_report_data, reportDates, sortByKey, insBy, c2line, c2row,
      intervalSlice, matchesDate, matchesHour, inServiceHours, serviceList,
      startHour, endHour, intervalCountsSum, calculate_interval_counts,
      interval_counts_total, countQ, totalQ, catList, qsum, pluMatch, pluList,
      truncQ, mkDetailRow, fmtHour, pad2, List.range', detailKey]
    norm_num
    decide
  have hrow : c2row ∈ generate_report_data [c2line] [] := by
    rw [h1]
    exact List.mem_singleton.mpr rfl
  have hs : "Lunch" ∈ serviceList := by decide
  have hne : ¬ ((generate_report_data [c2line] []).filter
      (fun r => decide (r.service = "Lunch"))).isEmpty = true := by
    rw [h1]
    decide
  exact ⟨hrow, hs, hne,
    conservation [c2line] [] c2row ("Lunch") hrow hs hne⟩

/-! ## Claim C7 -/

/-- Claim C7 is false on the code as stated: with fractional quantities (two
half-quantity lines on Pots and Corn at 13:00) the emitted row for the
bucket has every category count equal to 0 yet it appears in the report,
because the emission test uses the separately truncated Total. -/
theorem zero_bucket_counterexample :
    generate_report_data [fracPots, fracCornLate] [] = [zeroCatRowLate] ∧
    (∀ c : Category, zeroCatRowLate.get c = 0) ∧ zeroCatRowLate.total = 1 := by
  refine ⟨?_, by decide, rfl⟩
  simp [generate_report_data, reportDates, sortByKey, insBy, fracPots,
    fracCornLate, zeroCatRowLate, intervalSlice, matchesDate, matchesHour,
    inServiceHours, serviceList, startHour, endHour, intervalCountsSum,
    calculate_interval_counts, interval_counts_total, countQ, totalQ, catList,
    qsum, pluMatch, pluList, truncQ, mkDetailRow, fmtHour, pad2, List.range',
    detailKey]
  norm_num
  decide

/-- Claim C7 (amended): for lines with integral non-negative quantities the
claim holds: the bucket row of a date present in the item lines appears in
the emitted row set exactly when at least one of its category counts is
non-zero (so all-zero buckets are omitted), and the emitted row carries a
value for every one of the eight categories, namely the int-converted count
of its slice.  With fractional quantities the omission direction fails, as
the counterexample shows. -/
theorem zero_bucket_emission (items mods : List RawLine) (d : ℕ) (s : String)
    (hh : ℕ) (c : Category)
    (hint : IntQtys (items ++ mods)) (hnn : NonnegQtys (items ++ mods))
    (hd : d ∈ items.map (fun r => r.date)) (hs : s ∈ serviceList)
    (hhour : hourInService s hh) :
    (bucketRow items mods d s hh ∈ generate_report_data items mods
      ↔ ∃ c2 : Category, (bucketRow items mods d s hh).get c2 ≠ 0)
    ∧ (bucketRow items mods d s hh).get c
        = calculate_interval_counts (intervalSlice items d s hh)
            (intervalSlice mods d s hh) c := by
  have hintI : IntQtys items := fun r hr => hint r (List.mem_append_left _ hr)
  have hintM : IntQtys mods := fun r hr => hint r (List.mem_append_right _ hr)
  have hnnI : NonnegQtys items := fun r hr => hnn r (List.mem_append_left _ hr)
  have hnnM : NonnegQtys mods := fun r hr => hnn r (List.mem_append_right _ hr)
  have slices : ∀ (its mos : List RawLine) (d2 : ℕ) (s2 : String) (h2 : ℕ),
      IntQtys its → IntQtys mos → NonnegQtys its → NonnegQtys mos →
      (0 < intervalCountsSum (intervalSlice its d2 s2 h2) (intervalSlice mos d2 s2 h2)
        ↔ ∃ c2 : Category,
            calculate_interval_counts (intervalSlice its d2 s2 h2)
              (intervalSlice mos d2 s2 h2) c2 ≠ 0) := by
    intro its mos d2 s2 h2 hiI hiM hnI hnM
    have hiI2 : IntQtys (intervalSlice its d2 s2 h2) :=
      fun r hr => hiI r (mem_slice_sub hr)
    have hiM2 : IntQtys (intervalSlice mos d2 s2 h2) :=
      fun r hr => hiM r (mem_slice_sub hr)
    have hnI2 : NonnegQtys (intervalSlice its d2 s2 h2) :=
      fun r hr => hnI r (mem_slice_sub hr)
    have hnM2 : NonnegQtys (intervalSlice mos d2 s2 h2) :=
      fun r hr => hnM r (mem_slice_sub hr)
    rw [intervalCountsSum_int hiI2 hiM2]
    have hmap : ∀ x ∈ (catList.map
        (calculate_interval_counts (intervalSlice its d2 s2 h2)
          (intervalSlice mos d2 s2 h2))), (0:ℤ) ≤ x := by
      intro x hx
      rcases List.mem_map.mp hx with ⟨c2, _, rfl⟩
      exact calc_nonneg hnI2 hnM2 c2
    have hsum := sum_pos_iff_ne hmap
    constructor
    · intro hpos
      have : 0 < (catList.map (calculate_interval_counts (intervalSlice its d2 s2 h2)
          (intervalSlice mos d2 s2 h2))).sum := by omega
      obtain ⟨x, hx, hxne⟩ := hsum.mp this
      rcases List.mem_map.mp hx with ⟨c2, _, rfl⟩
      exact ⟨c2, hxne⟩
    · rintro ⟨c2, hc2⟩
      have hx : calculate_interval_counts (intervalSlice its d2 s2 h2)
          (intervalSlice mos d2 s2 h2) c2
          ∈ (catList.map (calculate_interval_counts (intervalSlice its d2 s2 h2)
            (intervalSlice mos d2 s2 h2))) :=
        List.mem_map.mpr ⟨c2, catList_complete c2, rfl⟩
      have := hsum.mpr ⟨_, hx, hc2⟩
      omega
  refine ⟨⟨?_, ?_⟩, by rw [bucketRow, get_mkDetailRow]⟩
  · intro hmem
    obtain ⟨d2, s2, hh2, _, _, _, hpos, hrw⟩ := mem_generate_elim hmem
    obtain ⟨c2, hc2⟩ := (slices items mods d2 s2 hh2 hintI hintM hnnI hnnM).mp hpos
    refine ⟨c2, ?_⟩
    rw [hrw, bucketRow, get_mkDetailRow]
    exact hc2
  · rintro ⟨c2, hc2⟩
    rw [bucketRow, get_mkDetailRow] at hc2
    exact mem_generate_intro hd hs hhour
      ((slices items mods d s hh hintI hintM hnnI hnnM).mpr ⟨c2, hc2⟩)

/-- Witness for `zero_bucket_emission` at the code-81831 line (hour 12). -/
theorem zero_bucket_emission_witness :
    IntQtys ([dupLine] ++ []) ∧ NonnegQtys ([dupLine] ++ []) ∧
    (0 ∈ [dupLine].map (fun r => r.date)) ∧ "Lunch" ∈ serviceList ∧
    hourInService ("Lunch") 12 ∧
    ((bucketRow [dupLine] [] 0 ("Lunch") 12 ∈ generate_report_data [dupLine] []
        ↔ ∃ c2 : Category, (bucketRow [dupLine] [] 0 ("Lunch") 12).get c2 ≠ 0)
      ∧ (bucketRow [dupLine] [] 0 ("Lunch") 12).get Category.corn
          = calculate_interval_counts (intervalSlice [dupLine] 0 ("Lunch") 12)
              (intervalSlice [] 0 ("Lunch") 12) Category.corn) := by
  have hint : IntQtys ([dupLine] ++ []) := by
    intro r hr
    simp only [List.append_nil, List.mem_singleton] at hr
    subst hr
    exact ⟨1, by norm_num [dupLine]⟩
  have hnn : NonnegQtys ([dupLine] ++ []) := by
    intro r hr
    simp only [List.append_nil, List.mem_singleton] at hr
    subst hr
    norm_num [dupLine]
  have hd : 0 ∈ [dupLine].map (fun r => r.date) := by decide
  have hs : "Lunch" ∈ serviceList := by decide
  have hhour : hourInService ("Lunch") 12 := by
    unfold hourInService
    decide
  exact ⟨hint, hnn, hd, hs, hhour,
    zero_bucket_emission [dupLine] [] 0 ("Lunch") 12 Category.corn
      hint hnn hd hs hhour⟩

/-! ## Claim C8 -/

/-- Claim C8 is false on the code in its mechanism part: the synthetic rank
is not carried as metadata independent of the row content — `_sort_order`
is computed from each row's Service string by case-insensitive substring
matching on Total (then equality with Grand Total), so the rank is a pure
function of the displayed text, and any Service text containing the word
(such as a lower-case subtotal) would be ranked 1. -/
theorem rank_from_content_counterexample :
    sortOrder ("Lunch") = 0 ∧ sortOrder ("Lunch Total") = 1 ∧
    sortOrder ("Dinner Total") = 1 ∧ sortOrder ("Grand Total") = 2 ∧
    sortOrder ("subtotal") = 1 ∧ sortOrder ("TOTAL") = 1 := by
  refine ⟨?_, ?_, ?_, ?_, ?_, ?_⟩ <;> decide

/-- Claim C8 (amended): the displayed report is sorted by the key
(`_sort_order`, Service, Interval) where the rank is derived from the
Service string (0 for the detail services Lunch and Dinner, 1 for the
service subtotal rows, 2 for Grand Total), so ranks are monotone along the
assembled report: every detail row sorts before every service subtotal,
which sorts before the grand total; but the rank is recomputed from the
Service text, not carried as metadata. -/
theorem display_sort_ranks (details : List Row) (i j : ℕ) (r t : Row)
    (hserv : ∀ x ∈ details, x.service = "Lunch" ∨ x.service = "Dinner")
    (hi : i < (assembledReport details).length)
    (hj : j < (assembledReport details).length)
    (hij : i < j)
    (hr : r ∈ details) (ht : t ∈ serviceTotalRows details) :
    sortOrder ((assembledReport details).get ⟨i, hi⟩).service
      ≤ sortOrder ((assembledReport details).get ⟨j, hj⟩).service
    ∧ sortOrder r.service = 0
    ∧ sortOrder t.service = 1
    ∧ sortOrder (grandTotalRow details).service = 2 := by
  refine ⟨?_, ?_, ?_, ?_⟩
  · have hrep : (assembledReport details).Pairwise (keyLe displayKey) := by
      rw [assembledReport]
      by_cases hemp : details.isEmpty
      · rw [if_pos hemp]
        exact List.Pairwise.nil
      · rw [if_neg hemp]
        exact sortByKey_pairwise displayKey _
    have hkl := List.pairwise_iff_get.mp hrep ⟨i, hi⟩ ⟨j, hj⟩ hij
    unfold keyLe displayKey at hkl
    exact lexLtN_false_head hkl
  · rcases hserv r hr with h | h <;> rw [h] <;> decide
  · rcases List.mem_flatMap.mp ht with ⟨s, hs, ht2⟩
    by_cases hemp : (details.filter (fun x => decide (x.service = s))).isEmpty
    · rw [if_pos hemp] at ht2
      exact absurd ht2 (List.not_mem_nil t)
    · rw [if_neg hemp, List.mem_singleton] at ht2
      subst ht2
      simp only [serviceList, List.mem_cons, List.not_mem_nil, or_false] at hs
      rcases hs with rfl | rfl
      · show sortOrder ("Lunch" ++ " Total") = 1
        decide
      · show sortOrder ("Dinner" ++ " Total") = 1
        decide
  · have hgs : (grandTotalRow details).service = "Grand Total" := rfl
    rw [hgs]
    decide

/-- Witness for `display_sort_ranks` on a one-detail-row report. -/
theorem display_sort_ranks_witness :
    (∀ x ∈ [c2row], x.service = "Lunch" ∨ x.service = "Dinner") ∧
    (0 : ℕ) < 1 ∧
    c2row ∈ [c2row] ∧
    colSumRow ("Lunch" ++ " Total") [c2row] ∈ serviceTotalRows [c2row] ∧
    (sortOrder ((assembledReport [c2row]).get
        ⟨0, by decide⟩).service
      ≤ sortOrder ((assembledReport [c2row]).get
        ⟨1, by decide⟩).service
    ∧ sortOrder c2row.service = 0
    ∧ sortOrder (colSumRow ("Lunch" ++ " Total") [c2row]).service = 1
    ∧ sortOrder (grandTotalRow [c2row]).service = 2) :=
  ⟨by decide, by decide, by decide, by decide,
    display_sort_ranks [c2row] 0 1 c2row (colSumRow ("Lunch" ++ " Total") [c2row])
      (by decide) (by decide) (by decide) (by decide) (by decide) (by decide)⟩

/-! ## Claim C9 -/

theorem dbKey_eq_fields {y x : DBRow} (hk : dbKey y = dbKey x) :
    y.loc = x.loc ∧ y.odate = x.odate := by
  rw [dbKey, dbKey] at hk
  exact ⟨congrArg Prod.fst hk, congrArg (fun p => p.2.1) hk⟩

theorem mem_delete_iff {d : ℕ} {l : String} {r : DBRow} {st : List DBRow} :
    r ∈ deleteDateLoc d l st ↔ r ∈ st ∧ ¬ (r.odate = d ∧ r.loc = l) := by
  rw [deleteDateLoc, List.mem_filter]
  constructor
  · rintro ⟨hm, hp⟩
    refine ⟨hm, ?_⟩
    rintro ⟨h1, h2⟩
    simp [h1, h2] at hp
  · rintro ⟨hm, hp⟩
    refine ⟨hm, ?_⟩
    by_cases h1 : r.odate = d
    · by_cases h2 : r.loc = l
      · exact absurd ⟨h1, h2⟩ hp
      · simp [h2]
    · simp [h1]

theorem mem_upsert_of_ne {x r : DBRow} {st : List DBRow}
    (hne : dbKey r ≠ dbKey x) : r ∈ upsert x st ↔ r ∈ st := by
  rw [upsert]
  by_cases hc : st.any (fun y => decide (dbKey y = dbKey x))
  · rw [if_pos hc]
    constructor
    · intro hm
      rcases List.mem_map.mp hm with ⟨y, hy, hyx⟩
      by_cases hk : dbKey y = dbKey x
      · rw [if_pos hk] at hyx
        subst hyx
        exact absurd rfl hne
      · rw [if_neg hk] at hyx
        subst hyx
        exact hy
    · intro hm
      refine List.mem_map.mpr ⟨r, hm, ?_⟩
      rw [if_neg hne]
  · rw [if_neg hc, List.mem_append]
    constructor
    · rintro (hm | hm)
      · exact hm
      · rw [List.mem_singleton] at hm
        subst hm
        exact absurd rfl hne
    · exact Or.inl

theorem mem_upsert_elim {x r : DBRow} {st : List DBRow} (h : r ∈ upsert x st) :
    r = x ∨ r ∈ st := by
  rw [upsert] at h
  by_cases hc : st.any (fun y => decide (dbKey y = dbKey x))
  · rw [if_pos hc] at h
    rcases List.mem_map.mp h with ⟨y, hy, hyx⟩
    by_cases hk : dbKey y = dbKey x
    · rw [if_pos hk] at hyx
      exact Or.inl hyx.symm
    · rw [if_neg hk] at hyx
      exact Or.inr (hyx ▸ hy)
  · rw [if_neg hc, List.mem_append] at h
    rcases h with hm | hm
    · exact Or.inr hm
    · exact Or.inl (List.mem_singleton.mp hm)

theorem keys_upsert_nodup {x : DBRow} {st : List DBRow}
    (h : (st.map dbKey).Nodup) : ((upsert x st).map dbKey).Nodup := by
  rw [upsert]
  by_cases hc : st.any (fun y => decide (dbKey y = dbKey x))
  · rw [if_pos hc]
    have hmap : (st.map (fun y => if dbKey y = dbKey x then x else y)).map dbKey
        = st.map dbKey := by
      rw [List.map_map]
      apply List.map_congr_left
      intro y _
      by_cases hk : dbKey y = dbKey x
      · simp only [Function.comp_apply, if_pos hk]
        exact hk.symm
      · simp only [Function.comp_apply, if_neg hk]
    rw [hmap]
    exact h
  · rw [if_neg hc, List.map_append]
    have hx : dbKey x ∉ st.map dbKey := by
      intro hmem
      rcases List.mem_map.mp hmem with ⟨y, hy, hyk⟩
      rw [List.any_eq_true] at hc
      exact hc ⟨y, hy, by simp [hyk]⟩
    simp [List.nodup_append, h, hx]

theorem insertAll_cons (x : DBRow) (xs : List DBRow) (st : List DBRow) :
    insertAll (x :: xs) st = insertAll xs (upsert x st) := rfl

theorem mem_insertAll_frame {d : ℕ} {l : String} :
    ∀ {xs : List DBRow} {st : List DBRow} {r : DBRow},
      (∀ x ∈ xs, x.odate = d ∧ x.loc = l) → ¬ (r.odate = d ∧ r.loc = l) →
      (r ∈ insertAll xs st ↔ r ∈ st)
  | [], _, _, _, _ => Iff.rfl
  | x :: xs, st, r, hx, hr => by
    rw [insertAll_cons]
    have hxk : dbKey r ≠ dbKey x := by
      intro hk
      have hx1 := hx x (by simp)
      rw [dbKey, dbKey] at hk
      have hloc : r.loc = x.loc := congrArg Prod.fst hk
      have hdate : r.odate = x.odate := congrArg (fun p => p.2.1) hk
      exact hr ⟨hdate.trans hx1.1, hloc.trans hx1.2⟩
    rw [mem_insertAll_frame (fun y hy => hx y (by simp [hy])) hr]
    exact mem_upsert_of_ne hxk

theorem keys_insertAll_nodup :
    ∀ {xs st : List DBRow}, (st.map dbKey).Nodup → ((insertAll xs st).map dbKey).Nodup
  | [], _, h => h
  | x :: xs, st, h => by
    rw [insertAll_cons]
    exact keys_insertAll_nodup (keys_upsert_nodup h)

theorem insertAll_provenance :
    ∀ {xs st : List DBRow} {r : DBRow}, r ∈ insertAll xs st → r ∈ st ∨ r ∈ xs
  | [], _, _, h => Or.inl h
  | x :: xs, st, r, h => by
    rw [insertAll_cons] at h
    rcases insertAll_provenance h with hm | hm
    · rcases mem_upsert_elim hm with rfl | hm2
      · exact Or.inr (by simp)
      · exact Or.inl hm2
    · exact Or.inr (by simp [hm])

theorem filter_map_replace (x : DBRow) (d : ℕ) (l : String)
    (hx : x.odate = d ∧ x.loc = l) :
    ∀ t : List DBRow,
      List.filter (fun r => !(decide (r.odate = d) && decide (r.loc = l)))
        (t.map (fun y => if dbKey y = dbKey x then x else y))
      = List.filter (fun r => !(decide (r.odate = d) && decide (r.loc = l))) t
  | [] => rfl
  | y :: t => by
    simp only [List.map_cons, List.filter_cons]
    by_cases hk : dbKey y = dbKey x
    · have hf := dbKey_eq_fields hk
      have hyf : y.odate = d ∧ y.loc = l :=
        ⟨hf.2.trans hx.1, hf.1.trans hx.2⟩
      have hpx : (!(decide (x.odate = d) && decide (x.loc = l))) = false := by
        simp [hx.1, hx.2]
      have hpy : (!(decide (y.odate = d) && decide (y.loc = l))) = false := by
        simp [hyf.1, hyf.2]
      rw [if_pos hk, hpx, hpy]
      simp only [Bool.false_eq_true, if_false]
      exact filter_map_replace x d l hx t
    · rw [if_neg hk]
      cases hpy : (!(decide (y.odate = d) && decide (y.loc = l)))
      · simp only [Bool.false_eq_true, if_false]
        exact filter_map_replace x d l hx t
      · simp only [if_true]
        rw [filter_map_replace x d l hx t]

theorem delete_upsert {x : DBRow} {st : List DBRow} {d : ℕ} {l : String}
    (hx : x.odate = d ∧ x.loc = l) :
    deleteDateLoc d l (upsert x st) = deleteDateLoc d l st := by
  rw [upsert]
  by_cases hc : st.any (fun y => decide (dbKey y = dbKey x))
  · rw [if_pos hc, deleteDateLoc, deleteDateLoc]
    exact filter_map_replace x d l hx st
  · rw [if_neg hc, deleteDateLoc, deleteDateLoc, List.filter_append]
    have hpx : (!(decide (x.odate = d) && decide (x.loc = l))) = false := by
      simp [hx.1, hx.2]
    have hone : List.filter (fun r => !(decide (r.odate = d) && decide (r.loc = l))) [x]
        = [] := by
      simp only [List.filter_cons, hpx, Bool.false_eq_true, if_false, List.filter_nil]
    rw [hone, List.append_nil]

theorem delete_insertAll {d : ℕ} {l : String} :
    ∀ {xs st : List DBRow}, (∀ x ∈ xs, x.odate = d ∧ x.loc = l) →
      deleteDateLoc d l (insertAll xs st) = deleteDateLoc d l st
  | [], _, _ => rfl
  | x :: xs, st, hx => by
    rw [insertAll_cons,
      delete_insertAll (fun y hy => hx y (by simp [hy])),
      delete_upsert (hx x (by simp))]

theorem deleteDateLoc_idem (d : ℕ) (l : String) (st : List DBRow) :
    deleteDateLoc d l (deleteDateLoc d l st) = deleteDateLoc d l st := by
  rw [deleteDateLoc, deleteDateLoc, List.filter_filter]
  apply List.filter_congr
  intro y _
  rw [Bool.and_self]

/-- Claim C9: for a non-empty report, `save_report_data` replaces exactly the
stored rows of this (date, location): the stored keys stay duplicate-free
(one row per (location, order_date, service, interval) key), rows for every
other (date, location) pair are untouched, every stored row of this
(date, location) comes from the report, and re-running the same save leaves
the store unchanged. -/
theorem save_upsert_frame (d : ℕ) (l : String) (report : List Row)
    (st : List DBRow) (r : DBRow)
    (hne : report ≠ []) (hnd : (st.map dbKey).Nodup) :
    ((save_report_data d l report st).map dbKey).Nodup
    ∧ (¬ (r.odate = d ∧ r.loc = l) →
        (r ∈ save_report_data d l report st ↔ r ∈ st))
    ∧ (r ∈ save_report_data d l report st → r.odate = d ∧ r.loc = l →
        ∃ row ∈ report, r = mkDBRow d l row)
    ∧ save_report_data d l report (save_report_data d l report st)
      = save_report_data d l report st := by
  have hnemp : ¬ report.isEmpty = true := by
    cases report
    · exact absurd rfl hne
    · simp
  have hxs : ∀ x ∈ report.map (mkDBRow d l), x.odate = d ∧ x.loc = l := by
    intro x hx
    rcases List.mem_map.mp hx with ⟨row, _, rfl⟩
    exact ⟨rfl, rfl⟩
  have hdel : ((deleteDateLoc d l st).map dbKey).Nodup := by
    have hsub : ((deleteDateLoc d l st).map dbKey).Sublist (st.map dbKey) :=
      (List.filter_sublist st).map dbKey
    exact hnd.sublist hsub
  rw [save_report_data, if_neg hnemp]
  refine ⟨keys_insertAll_nodup hdel, ?_, ?_, ?_⟩
  · intro hr
    rw [mem_insertAll_frame hxs hr, mem_delete_iff]
    exact ⟨fun hm => hm.1, fun hm => ⟨hm, hr⟩⟩
  · intro hmem hr
    rcases insertAll_provenance hmem with hm | hm
    · rw [mem_delete_iff] at hm
      exact absurd hr hm.2
    · rcases List.mem_map.mp hm with ⟨row, hrow, hrw⟩
      exact ⟨row, hrow, hrw.symm⟩
  · rw [save_report_data, if_neg hnemp, delete_insertAll hxs, deleteDateLoc_idem]

/-- Witness for `save_upsert_frame`: saving a one-row report for
(date 3, Waco) over a store holding a row for (date 7, Austin). -/
theorem save_upsert_frame_witness :
    [c2row] ≠ [] ∧ (([otherDBRow].map dbKey).Nodup) ∧
    (((save_report_data 3 ("Waco") [c2row] [otherDBRow]).map dbKey).Nodup
      ∧ (¬ (otherDBRow.odate = 3 ∧ otherDBRow.loc = "Waco") →
          (otherDBRow ∈ save_report_data 3 ("Waco") [c2row] [otherDBRow]
            ↔ otherDBRow ∈ [otherDBRow]))
      ∧ (otherDBRow ∈ save_report_data 3 ("Waco") [c2row] [otherDBRow]
          → otherDBRow.odate = 3 ∧ otherDBRow.loc = "Waco"
          → ∃ row ∈ [c2row], otherDBRow = mkDBRow 3 ("Waco") row)
      ∧ save_report_data 3 ("Waco") [c2row]
          (save_report_data 3 ("Waco") [c2row] [otherDBRow])
        = save_report_data 3 ("Waco") [c2row] [otherDBRow]) :=
  ⟨by decide, by decide,
    save_upsert_frame 3 ("Waco") [c2row] [otherDBRow] otherDBRow
      (by decide) (by decide)⟩

/-! ## Claim C10 -/

theorem expandRow_ne (r : Row) : expandRow r ≠ [] := by
  rw [expandRow]
  by_cases h1 : (!hasColon r.interval || containsTotalCS r.service) = true
  · rw [if_pos h1]
    simp
  · rw [if_neg h1]
    cases hp : parseHourStr r.interval <;> simp

theorem expandRow_split {r : Row} {h : ℕ} (hc : hasColon r.interval = true)
    (ht : containsTotalCS r.service = false)
    (hp : parseHourStr r.interval = some h) :
    expandRow r = [firstHalfRow r h, secondHalfRow r h] := by
  rw [expandRow]
  have hcond : (!hasColon r.interval || containsTotalCS r.service) = false := by
    rw [hc, ht]
    rfl
  rw [if_neg (by simp [hcond]), hp]

theorem expandRow_pass {r : Row}
    (h : hasColon r.interval = false ∨ containsTotalCS r.service = true
      ∨ parseHourStr r.interval = none) :
    expandRow r = [r] := by
  rw [expandRow]
  rcases h with h | h | h
  · rw [if_pos (by simp [h])]
  · rw [if_pos (by simp [h])]
  · by_cases h1 : (!hasColon r.interval || containsTotalCS r.service) = true
    · rw [if_pos h1]
    · rw [if_neg h1, h]

theorem halfUp_odd (k : ℤ) : halfUp (2 * k + 1) = k + 1 := by
  rw [halfUp]
  have harg : ((2 * k + 1 : ℤ) : ℚ) / 2 + 1 / 2 = ((k + 1 : ℤ) : ℚ) := by
    push_cast
    ring
  rw [harg, truncQ_intCast]

theorem colVal_firstHalf (r : Row) (h : ℕ) (c : NumCol) :
    colVal (firstHalfRow r h) c = halfUp (colVal r c) := by
  cases c with
  | cat c2 => cases c2 <;> rfl
  | total => rfl

theorem colVal_secondHalf (r : Row) (h : ℕ) (c : NumCol) :
    colVal (secondHalfRow r h) c = colVal r c - halfUp (colVal r c) := by
  cases c with
  | cat c2 => cases c2 <;> rfl
  | total => rfl

theorem convert_perm {df : List Row} (hdf : df ≠ []) :
    (convert_to_30min_intervals df).Perm (df.flatMap expandRow) := by
  have hne : ¬ df.isEmpty = true := by
    cases df
    · exact absurd rfl hdf
    · simp
  have hres : ¬ (df.flatMap expandRow).isEmpty = true := by
    cases df with
    | nil => exact absurd rfl hdf
    | cons r t =>
      rw [List.flatMap_cons]
      cases hE : expandRow r with
      | nil => exact absurd hE (expandRow_ne r)
      | cons a u => simp [hE]
  rw [convert_to_30min_intervals, if_neg hne, if_neg hres]
  exact sortByKey_perm detailKey _

/-- Claim C10: an hourly detail row whose Interval contains a colon, whose
Service does not contain Total, and whose hour prefix parses is replaced by
exactly the two rows labelled HH:00 and HH:30; for every numeric column
(eight categories and Total) the two halves sum exactly to the original
value, with the first half strictly larger when the value is odd; rows that
fail any of those conditions pass through unchanged; and the whole
conversion is a permutation of the per-row expansion (it only re-sorts by
Service and Interval). -/
theorem convert_30min_correct (df : List Row) (r r2 : Row) (h : ℕ) (c : NumCol)
    (hr : r ∈ df)
    (hc : hasColon r.interval = true)
    (ht : containsTotalCS r.service = false)
    (hp : parseHourStr r.interval = some h)
    (hf : hasColon r2.interval = false ∨ containsTotalCS r2.service = true
      ∨ parseHourStr r2.interval = none) :
    expandRow r = [firstHalfRow r h, secondHalfRow r h]
    ∧ (firstHalfRow r h).interval = pad2 h ++ ":00"
    ∧ (secondHalfRow r h).interval = pad2 h ++ ":30"
    ∧ colVal (firstHalfRow r h) c + colVal (secondHalfRow r h) c = colVal r c
    ∧ (Odd (colVal r c) →
        colVal (secondHalfRow r h) c < colVal (firstHalfRow r h) c)
    ∧ expandRow r2 = [r2]
    ∧ (convert_to_30min_intervals df).Perm (df.flatMap expandRow) := by
  refine ⟨expandRow_split hc ht hp, rfl, rfl, ?_, ?_, expandRow_pass hf,
    convert_perm (List.ne_nil_of_mem hr)⟩
  · rw [colVal_firstHalf, colVal_secondHalf]
    ring
  · rintro ⟨k, hk⟩
    have hv : colVal r c = 2 * k + 1 := by omega
    rw [colVal_firstHalf, colVal_secondHalf, hv, halfUp_odd]
    omega

/-- Witness for `convert_30min_correct`: the hourly 12:00 row (odd value 3
in the 1/2 Chix column) alongside a Lunch Total pass-through row. -/
theorem convert_30min_correct_witness :
    hourlyRow ∈ [hourlyRow, lunchTotalRow] ∧
    hasColon hourlyRow.interval = true ∧
    containsTotalCS hourlyRow.service = false ∧
    parseHourStr hourlyRow.interval = some 12 ∧
    containsTotalCS lunchTotalRow.service = true ∧
    (expandRow hourlyRow = [firstHalfRow hourlyRow 12, secondHalfRow hourlyRow 12]
      ∧ (firstHalfRow hourlyRow 12).interval = pad2 12 ++ ":00"
      ∧ (secondHalfRow hourlyRow 12).interval = pad2 12 ++ ":30"
      ∧ colVal (firstHalfRow hourlyRow 12) (NumCol.cat Category.halfChix)
          + colVal (secondHalfRow hourlyRow 12) (NumCol.cat Category.halfChix)
        = colVal hourlyRow (NumCol.cat Category.halfChix)
      ∧ (Odd (colVal hourlyRow (NumCol.cat Category.halfChix)) →
          colVal (secondHalfRow hourlyRow 12) (NumCol.cat Category.halfChix)
            < colVal (firstHalfRow hourlyRow 12) (NumCol.cat Category.halfChix))
      ∧ expandRow lunchTotalRow = [lunchTotalRow]
      ∧ (convert_to_30min_intervals [hourlyRow, lunchTotalRow]).Perm
          ([hourlyRow, lunchTotalRow].flatMap expandRow)) :=
  ⟨by decide, by decide, by decide, by decide, by decide,
    convert_30min_correct [hourlyRow, lunchTotalRow] hourlyRow lunchTotalRow 12
      (NumCol.cat Category.halfChix) (by decide) (by decide) (by decide)
      (by decide) (Or.inr (Or.inl (by decide)))⟩

end TasteBuds
